import Mathlib

/-!
Verification of the facet benchmark-report pipeline
(`scripts/parse_bench.py`, `scripts/parse-bench.py`).

A shallow embedding of the two Python benchmark-report scripts.  Durations are
modelled as exact rationals (`ℚ`), Python dictionaries as association lists
that keep insertion order (as Python dicts do), and the fixed regular
expressions of the scripts as deterministic character-level scanners (each
regex in the scripts has disjoint character classes at every boundary except
the metric-label corner, which is modelled exactly, so the deterministic
scanners compute the same matches as Python's backtracking engine).
An uncaught Python exception (the bare `float(...)` call in
`parse_divan_output`) is modelled by the parser returning `Except.error ()`.
-/

namespace ParseBench

instance {ε α : Type} [DecidableEq ε] [DecidableEq α] : DecidableEq (Except ε α) := fun x y =>
  match x, y with
  | .error a, .error b =>
    if h : a = b then isTrue (by rw [h]) else isFalse (by simp [h])
  | .ok a, .ok b =>
    if h : a = b then isTrue (by rw [h]) else isFalse (by simp [h])
  | .error _, .ok _ => isFalse (by simp)
  | .ok _, .error _ => isFalse (by simp)

/-! ## Association lists modelling Python dicts (insertion-ordered) -/

/-- Lookup in an insertion-ordered association list, i.e. Python `d.get(k)`. -/
def lookupA {α : Type} (k : String) : List (String × α) → Option α
  | [] => none
  | (k', v) :: rest => if k' = k then some v else lookupA k rest

/-- `d[k] = v` on a Python dict: overwrite in place if the key exists,
otherwise append at the end (preserving iteration order). -/
def updateA {α : Type} (k : String) (v : α) : List (String × α) → List (String × α)
  | [] => [(k, v)]
  | (k', v') :: rest => if k' = k then (k, v) :: rest else (k', v') :: updateA k v rest

/-- Modify the value stored at `k` in place; no-op when `k` is absent. -/
def modifyA {α : Type} (k : String) (f : α → α) : List (String × α) → List (String × α)
  | [] => []
  | (k', v') :: rest => if k' = k then (k', f v') :: rest else (k', v') :: modifyA k f rest

/-! ## Character classes and low-level scanners -/

/-- Python `\s` on the characters that can occur in a line
(lines never contain `'\n'`, having been produced by `text.split('\n')`). -/
def isPySpace (c : Char) : Bool :=
  c = ' ' || c = '\t' || c = '\n' || c = '\r' || c = '\x0b' || c = '\x0c'

/-- Python `\w` restricted to the ASCII identifiers that occur in harness
output: letters, digits and underscore.  The tree-drawing glyphs
`├ ╰ ─ │`, `:`, `.`, `|` and whitespace are all non-word characters,
matching Python. -/
def isWordChar (c : Char) : Bool :=
  c.isAlphanum || c = '_'

/-- Strip an explicit literal from the front of a character list
(the anchored literal part of a regex). -/
def stripPre : List Char → List Char → Option (List Char)
  | [], s => some s
  | _ :: _, [] => none
  | p :: ps, c :: cs => if p = c then stripPre ps cs else none

/-- Greedy `X+` for a character class `p`: the maximal non-empty run,
together with the remaining characters.  Faithful to the regexes of the
scripts because in each of them the class following an `X+` is disjoint
from the class of `X` (so Python's backtracking never shortens the run). -/
def takeClass1 (p : Char → Bool) (l : List Char) : Option (List Char × List Char) :=
  match l.takeWhile p with
  | [] => none
  | c :: cs => some (c :: cs, l.dropWhile p)

/-- Greedy `\s+`: requires at least one whitespace character. -/
def dropSpaces1 (l : List Char) : Option (List Char) :=
  match l with
  | [] => none
  | c :: rest => if isPySpace c then some (rest.dropWhile isPySpace) else none

/-- Decimal digit characters folded into a natural number. -/
def digitsToNat (l : List Char) : Nat :=
  l.foldl (fun a c => 10 * a + (c.toNat - 48)) 0

/-- Python `float(s)` on the strings the `([\d.]+)` capture can produce:
defined exactly when `s` consists of digits and dots, has at most one dot,
and contains at least one digit (so `"1.2.3"` and `"."` raise, modelled as
`none`, while `"1."` and `".5"` succeed as in Python). -/
def parseDecimal? (s : String) : Option ℚ :=
  let cs := s.toList
  if cs.all (fun c => c.isDigit || c = '.') && cs.any Char.isDigit then
    let ip := cs.takeWhile (fun c => c ≠ '.')
    match cs.dropWhile (fun c => c ≠ '.') with
    | [] => some (digitsToNat ip)
    | _ :: frac =>
      if frac.any (fun c => c = '.') then none
      else some ((digitsToNat ip : ℚ) + (digitsToNat frac : ℚ) / (10 ^ frac.length))
  else none

/-- Python `int(s)` on the comma-stripped captures of `([\d,]+)`:
succeeds exactly on non-empty all-digit strings (`int("")` raises). -/
def pyInt? (s : String) : Option Nat :=
  if s.toList ≠ [] && s.toList.all Char.isDigit then some (digitsToNat s.toList) else none

/-- Python substring containment `pat in s` (for non-empty `pat`). -/
def containsSub (pat : List Char) : List Char → Bool
  | [] => (stripPre pat []).isSome
  | c :: cs => (stripPre pat (c :: cs)).isSome || containsSub pat cs

/-- Python `s.replace(pat, repl)` for a non-empty pattern: replace all
non-overlapping occurrences, scanning left to right.  Structured with
explicit fuel so that the definition is structurally recursive; for a
non-empty pattern each step removes at least one character, so fuel
`s.length` never runs out and the `0` case is unreachable. -/
def replaceAllF (pat repl : List Char) : Nat → List Char → List Char
  | _, [] => []
  | 0, s => s
  | fuel + 1, c :: cs =>
    match stripPre pat (c :: cs) with
    | some suf => repl ++ replaceAllF pat repl fuel suf
    | none => c :: replaceAllF pat repl fuel cs

/-- Python `s.replace(pat, repl)`; the patterns used by the scripts are
non-empty. -/
def replaceAll (pat repl s : List Char) : List Char :=
  replaceAllF pat repl s.length s

/-- Python `s.strip()`: remove leading and trailing whitespace. -/
def pyStrip (s : List Char) : List Char :=
  ((s.dropWhile isPySpace).reverse.dropWhile isPySpace).reverse

/-- Python `text.split('\n')` (structural recursion over the characters):
`""` splits to `[""]`, empty pieces are kept. -/
def splitLinesAux : List Char → List Char → List String
  | [], acc => [String.mk acc.reverse]
  | c :: cs, acc =>
    if c = '\n' then String.mk acc.reverse :: splitLinesAux cs []
    else splitLinesAux cs (c :: acc)

/-- Python `text.split('\n')`. -/
def splitLines (text : String) : List String :=
  splitLinesAux text.toList []

/-! ## The four regexes of the scripts, as deterministic scanners -/

/-- `re.match(r'[├╰]─ (\w+)\s', line)`: the divan benchmark-section line.
Requires a tree glyph, `'─'`, one space, a non-empty word-character run
(the captured benchmark name) and one whitespace character right after it. -/
def matchSection (line : String) : Option String :=
  match line.toList with
  | c :: '─' :: ' ' :: rest =>
    if c = '├' || c = '╰' then
      match rest.takeWhile isWordChar, rest.dropWhile isWordChar with
      | [], _ => none
      | _ :: _, [] => none
      | nm, a :: _ => if isPySpace a then some (String.mk nm) else none
    else none
  | _ => none

/-- The `(ns|µs|ms)` alternation at the end of the divan result regex;
the three branches start with distinct characters, so matching is
first-match deterministic exactly as in Python. -/
def matchUnit (l : List Char) : Option String :=
  match l with
  | 'n' :: 's' :: _ => some "ns"
  | 'µ' :: 's' :: _ => some "µs"
  | 'm' :: 's' :: _ => some "ms"
  | _ => none

/-- `re.match(r'│?\s*[├╰]─\s+([\w_]+)\s+([\d.]+)\s+(ns|µs|ms)', line)`:
the divan measurement line.  Returns the captured
(target name, numeric literal, unit token). -/
def matchResult (line : String) : Option (String × String × String) :=
  let cs0 := line.toList
  let cs1 := match cs0 with
    | '│' :: r => r
    | _ => cs0
  let cs2 := cs1.dropWhile isPySpace
  match cs2 with
  | c :: '─' :: rest =>
    if c = '├' || c = '╰' then
      match dropSpaces1 rest with
      | none => none
      | some r1 =>
        match takeClass1 isWordChar r1 with
        | none => none
        | some (nm, r2) =>
          match dropSpaces1 r2 with
          | none => none
          | some r3 =>
            match takeClass1 (fun c => c.isDigit || c = '.') r3 with
            | none => none
            | some (num, r4) =>
              match dropSpaces1 r4 with
              | none => none
              | some r5 =>
                (matchUnit r5).map (fun u => (String.mk nm, String.mk num, u))
    else none
  | _ => none

/-- `re.match(r'gungraun_jit::[\w_]+::([\w_]+)', line)`: the gungraun
section line; captures the segment after the second `::`. -/
def matchGungraunName (line : String) : Option String :=
  match stripPre ("gungraun_jit::".toList) line.toList with
  | none => none
  | some r =>
    match takeClass1 isWordChar r with
    | none => none
    | some (_, r2) =>
      match r2 with
      | ':' :: ':' :: r3 =>
        match takeClass1 isWordChar r3 with
        | none => none
        | some (nm, _) => some (String.mk nm)
      | _ => none

/-- `re.match(r'\s+([\w\s]+):\s+([\d,]+)', line)`: the gungraun metric line.
The label class `[\w\s]` overlaps `\s`, so Python's backtracking is modelled
exactly: with `ws` the leading whitespace run and `p` the leading
word-or-space run, the match requires the first character to be whitespace,
`p` to have length at least two and to be followed by `':'`; the captured
label is `p` minus the first `min ws (p-1)` characters (so when the run up
to `':'` is all whitespace, one space is left in the capture, as Python
does). -/
def matchMetric (line : String) : Option (String × String) :=
  match line.toList with
  | [] => none
  | c0 :: cs' =>
    if isPySpace c0 then
      if 2 ≤ ((c0 :: cs').takeWhile (fun c => isWordChar c || isPySpace c)).length then
        match (c0 :: cs').dropWhile (fun c => isWordChar c || isPySpace c) with
        | ':' :: r1 =>
          (dropSpaces1 r1).bind (fun r2 =>
            (takeClass1 (fun c => c.isDigit || c = ',') r2).map (fun pr =>
              (String.mk (((c0 :: cs').takeWhile (fun c => isWordChar c || isPySpace c)).drop
                  (min ((c0 :: cs').takeWhile isPySpace).length
                    (((c0 :: cs').takeWhile (fun c => isWordChar c || isPySpace c)).length - 1))),
                String.mk pr.1)))
        | _ => none
      else none
    else none

/-! ## The statistical-harness (divan) parser, `parse_divan_output` of `parse_bench.py` -/

/-- One benchmark's entry: the two per-operation `target → median_ns` dicts
created by `results[current_benchmark] = {'deserialize': {}, 'serialize': {}}`. -/
structure DivanEntry where
  deser : List (String × ℚ)
  ser : List (String × ℚ)
deriving DecidableEq, Repr

/-- The unit-normalisation chain of `parse_divan_output`:
`if unit == 'µs': value *= 1000  elif unit == 'ms': value *= 1_000_000`. -/
def unitFactor (u : String) : ℚ :=
  if u = "µs" then 1000 else if u = "ms" then 1000000 else 1

/-- `'deserialize' in target_full`. -/
def deserQ (t : String) : Bool :=
  containsSub "deserialize".toList t.toList

/-- `target_full.replace('_deserialize', '').replace('_serialize', '')`. -/
def stripMarkersS (t : String) : String :=
  String.mk (replaceAll "_serialize".toList [] (replaceAll "_deserialize".toList [] t.toList))

/-- `results[current_benchmark][operation][target_base] = value` with
`operation = 'deserialize' if 'deserialize' in target_full else 'serialize'`. -/
def addMeasurement (t : String) (value : ℚ) (e : DivanEntry) : DivanEntry :=
  if deserQ t then { e with deser := updateA (stripMarkersS t) value e.deser }
  else { e with ser := updateA (stripMarkersS t) value e.ser }

/-- The loop state of `parse_divan_output`: the `results` dict and the
`current_benchmark` variable. -/
def DivanState : Type := List (String × DivanEntry) × Option String

/-- One iteration of the `for line in lines` loop of `parse_divan_output`.
`Except.error ()` models the uncaught `ValueError` that `float(...)` raises
on a numeric capture such as `"1.2.3"`. -/
def divanStep (st : DivanState) (line : String) : Except Unit DivanState :=
  match matchSection line with
  | some name => .ok (updateA name ⟨[], []⟩ st.1, some name)
  | none =>
    match st.2 with
    | none => .ok st
    | some b =>
      match matchResult line with
      | none => .ok st
      | some (t, s, u) =>
        match parseDecimal? s with
        | none => .error ()
        | some v => .ok (modifyA b (addMeasurement t (v * unitFactor u)) st.1, st.2)

/-- The whole `for line in lines` loop, stopping at the first uncaught
exception. -/
def divanRun : List String → DivanState → Except Unit DivanState
  | [], st => .ok st
  | line :: rest, st =>
    match divanStep st line with
    | .error e => .error e
    | .ok st' => divanRun rest st'

/-- `parse_divan_output` on a pre-split list of lines. -/
def divanLoop (lines : List String) (res : List (String × DivanEntry))
    (cur : Option String) : Except Unit (List (String × DivanEntry)) :=
  (divanRun lines (res, cur)).map Prod.fst

/-- `parse_divan_output(text)` of `scripts/parse_bench.py`: split on `'\n'`,
run the loop from an empty dict and no current benchmark. -/
def parse_divan_output (text : String) : Except Unit (List (String × DivanEntry)) :=
  divanLoop (splitLines text) [] none

/-! ## The instruction-harness (gungraun) parser, `parse_gungraun_output` of `parse_bench.py` -/

/-- `value_str = group(2).replace(',', '')`, the (dead, but embedded
faithfully) `split('|')[0]` branch, then `int(value_str)` under
`try/except ValueError`. -/
def processMetricValue (vstr : String) : Option Nat :=
  if (vstr.toList.filter (fun c => c ≠ ',')).any (fun c => c = '|') then
    pyInt? (String.mk ((vstr.toList.filter (fun c => c ≠ ',')).takeWhile (fun c => c ≠ '|')))
  else
    pyInt? (String.mk (vstr.toList.filter (fun c => c ≠ ',')))

/-- The `for line in lines` loop of `parse_gungraun_output`; total, because
the only fallible call (`int`) is wrapped in `try/except ValueError`. -/
def gungraunLoop : List String → List (String × List (String × Nat)) → Option String →
    List (String × List (String × Nat))
  | [], res, _ => res
  | line :: rest, res, cur =>
    match matchGungraunName line with
    | some name => gungraunLoop rest (updateA name [] res) (some name)
    | none =>
      match cur with
      | none => gungraunLoop rest res cur
      | some b =>
        match matchMetric line with
        | none => gungraunLoop rest res cur
        | some (label, vstr) =>
          match processMetricValue vstr with
          | none => gungraunLoop rest res cur
          | some v =>
            gungraunLoop rest (modifyA b (updateA (String.mk (pyStrip label.toList)) v) res) cur

/-- `parse_gungraun_output(text)` of `scripts/parse_bench.py`. -/
def parse_gungraun_output (text : String) : List (String × List (String × Nat)) :=
  gungraunLoop (splitLines text) [] none

/-! ## Report synthesis: numeric core of `generate_benchmark_section` and
`generate_sections_html` of `parse_bench.py` -/

/-- `serde_time and serde_time > 0` guard and the division of
`generate_benchmark_section`:
`vs_serde = time_ns / serde_time if serde_time and serde_time > 0 else 0`. -/
def vsSerdeValue (timeNs : ℚ) (serdeTime : Option ℚ) : ℚ :=
  match serdeTime with
  | some s => if 0 < s then timeNs / s else 0
  | none => 0

/-- `vs_serde_str = f"{vs_serde:.2f}x" if vs_serde > 0 else "-"`:
`some` is a rendered ratio, `none` is the absent marker `"-"`. -/
def vsSerdeStr (v : ℚ) : Option ℚ :=
  if 0 < v then some v else none

/-- Comma-grouping of `f"{n:,}"`: digits in groups of three from the right. -/
def chunk3 : List Char → List (List Char)
  | [] => []
  | [a] => [[a]]
  | [a, b] => [[a, b]]
  | a :: b :: c :: rest => [a, b, c] :: chunk3 rest

/-- `f"{n:,}"` for a natural number. -/
def formatWithCommas (n : Nat) : String :=
  String.mk ((((chunk3 (Nat.toDigits 10 n).reverse).intersperse [',']).flatten).reverse)

/-- The instruction cell of `generate_benchmark_section`:
`instructions = gungraun_data.get(key, {}).get('Instructions')` followed by
`instructions_str = f"{instructions:,}" if instructions else "-"`
(Python truthiness: both `None` and `0` render as `"-"`). -/
def instructions_str (g : List (String × List (String × Nat))) (key : String) : String :=
  match (lookupA key g).bind (lookupA "Instructions") with
  | some n => if n ≠ 0 then formatWithCommas n else "-"
  | none => "-"

/-- `if bench_data.get('deserialize'):` / `if bench_data.get('serialize'):`
of `generate_sections_html`: the benchmark-section ids emitted for one
benchmark; an operation dict that is empty (falsy) emits nothing. -/
def benchSections (b : String) (e : DivanEntry) : List String :=
  (if e.deser.isEmpty then [] else [b ++ "_deser"]) ++
    (if e.ser.isEmpty then [] else [b ++ "_ser"])

/-- The fixed micro-benchmark name bucket of `generate_sections_html`. -/
def microList : List String :=
  ["simple_struct", "single_nested_struct", "simple_with_options", "nested_struct"]

/-- The fixed realistic-benchmark name bucket. -/
def realisticList : List String :=
  ["twitter", "canada", "hashmaps", "nested_structs"]

/-- The fixed array-benchmark name bucket. -/
def arrayList : List String :=
  ["floats", "integers", "booleans", "short_strings", "long_strings", "escaped_strings"]

/-- `generate_sections_html` reduced to the sequence of benchmark-section
ids it emits: benchmarks are partitioned into the four category buckets and
each contributes `benchSections` of its entry. -/
def generate_sections_html (m : List (String × DivanEntry)) : List String :=
  let names := m.map Prod.fst
  let micro := names.filter (fun b => b ∈ microList)
  let realistic := names.filter (fun b => b ∈ realisticList)
  let arr := names.filter (fun b => b ∈ arrayList)
  let other := names.filter (fun b => b ∉ micro ++ realistic ++ arr)
  [micro, realistic, arr, other].flatMap (fun benches =>
    benches.flatMap (fun b =>
      match lookupA b m with
      | some e => benchSections b e
      | none => []))

/-! ## Numeric core of `generate_html_report` of `parse-bench.py`
(the vs-fastest table) -/

/-- Python `min(iterable)` on a list of rationals (the empty case never
occurs in the script: it is guarded by `if not data: continue`). -/
def listMin : List ℚ → ℚ
  | [] => 0
  | [x] => x
  | x :: y :: rest => min x (listMin (y :: rest))

/-- One step of Python's stable `sorted(data.items(), key=lambda x: x[1])`:
insert before the first strictly slower element, after equal ones seen
earlier. -/
def insertSorted (p : String × ℚ) : List (String × ℚ) → List (String × ℚ)
  | [] => [p]
  | q :: rest => if q.2 < p.2 then q :: insertSorted p rest else p :: q :: rest

/-- Stable sort by duration, fastest first (`sorted` with a stable sort). -/
def sortStable : List (String × ℚ) → List (String × ℚ)
  | [] => []
  | p :: rest => insertSorted p (sortStable rest)

/-- The per-row `vs Fastest` column of `generate_html_report` in
`parse-bench.py`: `fastest = min(data.values())`, rows sorted fastest first,
`vs_fastest = f"{time_ns / fastest:.2f}x" if fastest > 0 else "-"`
(`none` is the absent marker `"-"`). -/
def vs_fastest_rows (data : List (String × ℚ)) : List (String × Option ℚ) :=
  (sortStable data).map (fun p => (p.1,
    if 0 < listMin (data.map Prod.snd) then some (p.2 / listMin (data.map Prod.snd)) else none))

/-! ## `main` of `parse_bench.py` -/

/-- Observable outcome of one run of `main`. -/
structure MainResult where
  exitCode : Nat
  reportWritten : Bool
deriving DecidableEq, Repr

/-- `main()` of `scripts/parse_bench.py`, with the file system modelled as a
partial map from path to contents.  `sys.argv` with fewer than three entries
prints usage and exits 1; otherwise each input file is read when it exists
and replaced by the empty string when it does not
(`divan_file.read_text() if divan_file.exists() else ""`); an uncaught
exception from `parse_divan_output` aborts with a traceback (non-zero exit,
no report); otherwise the report is written and the process exits 0. -/
def mainModel (argv : List String) (fs : String → Option String) : MainResult :=
  if argv.length < 3 then ⟨1, false⟩
  else
    let divanText := ((argv.get? 1).bind fs).getD ""
    let gungraunText := ((argv.get? 2).bind fs).getD ""
    match parse_divan_output divanText with
    | .error _ => ⟨1, false⟩
    | .ok _ =>
      let _ := parse_gungraun_output gungraunText
      ⟨0, true⟩

/-! ## Spec-side definition for the refinement comparison of claim C6 -/

/-- Modelled from the spec: "derives the target identity by stripping that
marker substring from the measurement name", where "that marker" is the
marker of the classified operation (`_deserialize` when the name contains
`deserialize`, `_serialize` otherwise).  Used only to compare the spec's
words with the source's `stripMarkersS`. -/
def specStripOperationMarker (t : String) : String :=
  if deserQ t then String.mk (replaceAll "_deserialize".toList [] t.toList)
  else String.mk (replaceAll "_serialize".toList [] t.toList)

/-! ## Helper lemmas -/

theorem lookupA_updateA_self {α : Type} (k : String) (v : α) (l : List (String × α)) :
    lookupA k (updateA k v l) = some v := by
  induction l with
  | nil => simp [updateA, lookupA]
  | cons p rest ih =>
    obtain ⟨k', v'⟩ := p
    by_cases h : k' = k <;> simp [updateA, lookupA, h, ih]

theorem lookupA_updateA_ne {α : Type} {k k' : String} (h : k' ≠ k) (v : α)
    (l : List (String × α)) : lookupA k' (updateA k v l) = lookupA k' l := by
  induction l with
  | nil => simp [updateA, lookupA, Ne.symm h]
  | cons p rest ih =>
    obtain ⟨k0, v0⟩ := p
    by_cases h0 : k0 = k
    · subst h0
      simp [updateA, lookupA, Ne.symm h]
    · simp [updateA, lookupA, h0, ih]

theorem lookupA_modifyA_self {α : Type} (k : String) (f : α → α) (l : List (String × α)) :
    lookupA k (modifyA k f l) = (lookupA k l).map f := by
  induction l with
  | nil => simp [modifyA, lookupA]
  | cons p rest ih =>
    obtain ⟨k0, v0⟩ := p
    by_cases h0 : k0 = k <;> simp [modifyA, lookupA, h0, ih]

theorem lookupA_modifyA_ne {α : Type} {k k' : String} (h : k' ≠ k) (f : α → α)
    (l : List (String × α)) : lookupA k' (modifyA k f l) = lookupA k' l := by
  induction l with
  | nil => simp [modifyA]
  | cons p rest ih =>
    obtain ⟨k0, v0⟩ := p
    by_cases h0 : k0 = k
    · subst h0
      simp [modifyA, lookupA, Ne.symm h]
    · simp [modifyA, lookupA, h0, ih]

theorem lookupA_mem {α : Type} {k : String} {v : α} :
    ∀ {l : List (String × α)}, lookupA k l = some v → (k, v) ∈ l := by
  intro l
  induction l with
  | nil => intro h; simp [lookupA] at h
  | cons p rest ih =>
    obtain ⟨k0, v0⟩ := p
    intro h
    by_cases h0 : k0 = k
    · subst h0
      simp [lookupA] at h
      simp [h]
    · simp [lookupA, h0] at h
      exact List.mem_cons_of_mem _ (ih h)

theorem stripPre_length :
    ∀ {pat s suf : List Char}, stripPre pat s = some suf →
      suf.length + pat.length = s.length := by
  intro pat
  induction pat with
  | nil => intro s suf h; simp [stripPre] at h; simp [h]
  | cons p ps ih =>
    intro s suf h
    cases s with
    | nil => simp [stripPre] at h
    | cons c cs =>
      simp only [stripPre] at h
      by_cases hpc : p = c
      · simp [hpc] at h
        have := ih h
        simp [List.length_cons]
        omega
      · simp [hpc] at h

theorem flatMapNilOf {α β : Type} (f : α → List β) :
    ∀ l : List α, (∀ a ∈ l, f a = []) → l.flatMap f = [] := by
  intro l
  induction l with
  | nil => intro _; rfl
  | cons a rest ih =>
    intro h
    simp only [List.flatMap_cons, h a (List.mem_cons_self a rest)]
    simp only [List.nil_append]
    exact ih (fun b hb => h b (List.mem_cons_of_mem a hb))

theorem takeClass1_some {p : Char → Bool} {l cs r : List Char}
    (h : takeClass1 p l = some (cs, r)) :
    cs = l.takeWhile p ∧ r = l.dropWhile p ∧ cs ≠ [] := by
  unfold takeClass1 at h
  cases htw : l.takeWhile p with
  | nil => rw [htw] at h; exact absurd h (by simp)
  | cons c cs' =>
    rw [htw] at h
    simp only [Option.some.injEq, Prod.mk.injEq] at h
    refine ⟨h.1.symm, h.2.symm, ?_⟩
    rw [← h.1]
    simp

theorem stripPre_isSome_iff :
    ∀ (pat s : List Char), (stripPre pat s).isSome = true ↔ ∃ r, s = pat ++ r := by
  intro pat
  induction pat with
  | nil =>
    intro s
    simp [stripPre]
  | cons p ps ih =>
    intro s
    cases s with
    | nil =>
      simp [stripPre]
    | cons c cs =>
      by_cases hpc : p = c
      · subst hpc
        have hred : stripPre (p :: ps) (p :: cs) = stripPre ps cs := by simp [stripPre]
        rw [hred, ih cs]
        constructor
        · rintro ⟨r, hr⟩; exact ⟨r, by rw [List.cons_append, hr]⟩
        · rintro ⟨r, hr⟩
          rw [List.cons_append] at hr
          exact ⟨r, (List.cons.injEq _ _ _ _ ▸ hr).2⟩
      · simp only [stripPre, if_neg hpc]
        constructor
        · intro hcon; exact absurd hcon (by simp)
        · rintro ⟨r, hr⟩
          rw [List.cons_append] at hr
          exact absurd ((List.cons.injEq _ _ _ _ ▸ hr).1.symm) hpc

theorem containsSub_iff (pat : List Char) :
    ∀ s : List Char, containsSub pat s = true ↔ ∃ l r, s = l ++ pat ++ r := by
  intro s
  induction s with
  | nil =>
    simp only [containsSub]
    rw [stripPre_isSome_iff]
    constructor
    · rintro ⟨r, hr⟩
      exact ⟨[], r, by simpa using hr⟩
    · rintro ⟨l, r, hr⟩
      have hl : l = [] := by
        cases l with
        | nil => rfl
        | cons a l' => exact absurd hr (by simp)
      subst hl
      exact ⟨r, by simpa using hr⟩
  | cons c cs ih =>
    simp only [containsSub, Bool.or_eq_true]
    rw [stripPre_isSome_iff, ih]
    constructor
    · rintro (⟨r, hr⟩ | ⟨l, r, hr⟩)
      · exact ⟨[], r, by simpa using hr⟩
      · exact ⟨c :: l, r, by simp [hr]⟩
    · rintro ⟨l, r, hr⟩
      cases l with
      | nil => exact Or.inl ⟨r, by simpa using hr⟩
      | cons a l' =>
        right
        rw [List.cons_append, List.cons_append, List.cons.injEq] at hr
        exact ⟨l', r, hr.2⟩

theorem listMin_mem : ∀ l : List ℚ, l ≠ [] → listMin l ∈ l
  | [x], _ => by simp [listMin]
  | x :: y :: rest, _ => by
    rcases min_choice x (listMin (y :: rest)) with h | h
    · simp [listMin, h]
    · have hm := listMin_mem (y :: rest) (by simp)
      rw [show listMin (x :: y :: rest) = min x (listMin (y :: rest)) from rfl, h]
      exact List.mem_cons_of_mem x hm

theorem listMin_le : ∀ (l : List ℚ) (y : ℚ), y ∈ l → listMin l ≤ y
  | [x], y, h => by
    simp only [List.mem_singleton] at h
    simp [listMin, h]
  | a :: b :: rest, y, h => by
    rw [show listMin (a :: b :: rest) = min a (listMin (b :: rest)) from rfl]
    rcases List.mem_cons.mp h with h1 | h1
    · subst h1; exact min_le_left _ _
    · exact le_trans (min_le_right _ _) (listMin_le (b :: rest) y h1)

theorem mem_insertSorted (p x : String × ℚ) :
    ∀ l : List (String × ℚ), x ∈ insertSorted p l ↔ x = p ∨ x ∈ l := by
  intro l
  induction l with
  | nil => simp [insertSorted]
  | cons q rest ih =>
    by_cases h : q.2 < p.2
    · simp only [insertSorted, if_pos h, List.mem_cons, ih]
      try tauto
    · simp only [insertSorted, if_neg h, List.mem_cons]
      try tauto

theorem countP_insertSorted (q : String × ℚ → Bool) (p : String × ℚ) :
    ∀ l : List (String × ℚ),
      (insertSorted p l).countP q = (if q p then 1 else 0) + l.countP q := by
  intro l
  induction l with
  | nil => simp [insertSorted, List.countP_cons]
  | cons r rest ih =>
    by_cases h : r.2 < p.2
    · simp only [insertSorted, if_pos h, List.countP_cons, ih]
      omega
    · simp only [insertSorted, if_neg h, List.countP_cons]
      omega

theorem length_insertSorted (p : String × ℚ) :
    ∀ l : List (String × ℚ), (insertSorted p l).length = l.length + 1 := by
  intro l
  induction l with
  | nil => simp [insertSorted]
  | cons r rest ih =>
    by_cases h : r.2 < p.2
    · simp only [insertSorted, if_pos h, List.length_cons, ih]
    · simp [insertSorted, if_neg h]

theorem mem_sortStable (x : String × ℚ) :
    ∀ l : List (String × ℚ), x ∈ sortStable l ↔ x ∈ l := by
  intro l
  induction l with
  | nil => simp [sortStable]
  | cons p rest ih =>
    simp only [sortStable, mem_insertSorted, List.mem_cons, ih]
    try tauto

theorem countP_sortStable (q : String × ℚ → Bool) :
    ∀ l : List (String × ℚ), (sortStable l).countP q = l.countP q := by
  intro l
  induction l with
  | nil => rfl
  | cons p rest ih =>
    simp only [sortStable, countP_insertSorted, ih, List.countP_cons]
    omega

theorem length_sortStable :
    ∀ l : List (String × ℚ), (sortStable l).length = l.length := by
  intro l
  induction l with
  | nil => rfl
  | cons p rest ih =>
    simp only [sortStable, length_insertSorted, ih, List.length_cons]

theorem head_sortStable :
    ∀ l : List (String × ℚ),
      (sortStable l).head? = l.find? (fun p => decide (p.2 = listMin (l.map Prod.snd))) := by
  intro l
  induction l with
  | nil => simp [sortStable, listMin]
  | cons p rest ih =>
    cases rest with
    | nil =>
      simp [sortStable, insertSorted, listMin, List.find?]
    | cons r0 rs =>
      have hM : listMin ((p :: r0 :: rs).map Prod.snd) =
          min p.2 (listMin ((r0 :: rs).map Prod.snd)) := rfl
      obtain ⟨q, tail, hs⟩ : ∃ q tail, sortStable (r0 :: rs) = q :: tail := by
        cases h : sortStable (r0 :: rs) with
        | nil =>
          have := length_sortStable (r0 :: rs)
          rw [h] at this
          simp at this
        | cons q tail => exact ⟨q, tail, rfl⟩
      have hq : (r0 :: rs).find?
          (fun x => decide (x.2 = listMin ((r0 :: rs).map Prod.snd))) = some q := by
        rw [← ih, hs]
        rfl
      have hqv : q.2 = listMin ((r0 :: rs).map Prod.snd) := by
        have hfs := List.find?_some hq
        simpa using hfs
      rw [show sortStable (p :: r0 :: rs) = insertSorted p (sortStable (r0 :: rs)) from rfl, hs]
      by_cases hlt : q.2 < p.2
      · have hmin : min p.2 (listMin ((r0 :: rs).map Prod.snd)) =
            listMin ((r0 :: rs).map Prod.snd) :=
          min_eq_right (le_of_lt (hqv ▸ hlt))
        have hMM : listMin ((p :: r0 :: rs).map Prod.snd) = listMin ((r0 :: rs).map Prod.snd) :=
          hM.trans hmin
        have hL : (insertSorted p (q :: tail)).head? = some q := by
          simp [insertSorted, hlt]
        rw [hL, hMM]
        have hpredp : (decide (p.2 = listMin ((r0 :: rs).map Prod.snd))) = false := by
          apply decide_eq_false
          intro hcon
          rw [← hqv] at hcon
          exact absurd hlt (by rw [hcon]; exact lt_irrefl _)
        simp only [List.find?, hpredp]
        exact hq.symm
      · have hle : p.2 ≤ listMin ((r0 :: rs).map Prod.snd) := hqv ▸ le_of_not_lt hlt
        have hmin : min p.2 (listMin ((r0 :: rs).map Prod.snd)) = p.2 := min_eq_left hle
        have hMM : listMin ((p :: r0 :: rs).map Prod.snd) = p.2 := hM.trans hmin
        have hL : (insertSorted p (q :: tail)).head? = some p := by
          simp [insertSorted, hlt]
        rw [hL, hMM]
        simp [List.find?]

theorem divanRun_append :
    ∀ (xs ys : List String) (st : DivanState),
      divanRun (xs ++ ys) st =
        match divanRun xs st with
        | .error e => .error e
        | .ok st' => divanRun ys st' := by
  intro xs
  induction xs with
  | nil => intro ys st; rfl
  | cons line rest ih =>
    intro ys st
    rw [List.cons_append]
    show (match divanStep st line with
          | .error e => Except.error e
          | .ok st' => divanRun (rest ++ ys) st') =
        match (match divanStep st line with
               | .error e => Except.error e
               | .ok st' => divanRun rest st') with
        | .error e => Except.error e
        | .ok st' => divanRun ys st'
    cases divanStep st line with
    | error e => rfl
    | ok st' => exact ih ys st'

theorem divanRun_skip :
    ∀ rest : List String,
      (∀ l' ∈ rest, matchSection l' = none ∧ matchResult l' = none) →
      ∀ st : DivanState, divanRun rest st = .ok st := by
  intro rest
  induction rest with
  | nil => intro _ st; rfl
  | cons line rest' ih =>
    intro h st
    obtain ⟨h1, h2⟩ := h line (List.mem_cons_self line rest')
    have hstep : divanStep st line = .ok st := by
      unfold divanStep
      rw [h1, h2]
      cases st.2 <;> rfl
    show (match divanStep st line with
          | .error e => Except.error e
          | .ok st' => divanRun rest' st') = _
    rw [hstep]
    exact ih (fun l' hl' => h l' (List.mem_cons_of_mem line hl')) st

theorem divanRun_rel (name : String) :
    ∀ (suf : List String) (r1 r2 : List (String × DivanEntry)) (c : Option String),
      lookupA name r1 = lookupA name r2 →
      (divanRun suf (r1, c) = .error () ∧ divanRun suf (r2, c) = .error ()) ∨
      (∃ m1 m2 c', divanRun suf (r1, c) = .ok (m1, c') ∧ divanRun suf (r2, c) = .ok (m2, c') ∧
        lookupA name m1 = lookupA name m2) := by
  intro suf
  induction suf with
  | nil =>
    intro r1 r2 c h
    exact Or.inr ⟨r1, r2, c, rfl, rfl, h⟩
  | cons line rest ih =>
    intro r1 r2 c h
    have hrun : ∀ (r : List (String × DivanEntry)),
        divanRun (line :: rest) (r, c) =
          match divanStep (r, c) line with
          | .error e => Except.error e
          | .ok st' => divanRun rest st' := fun _ => rfl
    rw [hrun r1, hrun r2]
    cases hsec : matchSection line with
    | some n =>
      have hstep : ∀ r, divanStep (r, c) line = .ok (updateA n ⟨[], []⟩ r, some n) := by
        intro r
        unfold divanStep
        rw [hsec]
      rw [hstep r1, hstep r2]
      apply ih
      by_cases hn : n = name
      · subst hn
        rw [lookupA_updateA_self, lookupA_updateA_self]
      · rw [lookupA_updateA_ne (fun hc => hn hc.symm), lookupA_updateA_ne (fun hc => hn hc.symm)]
        exact h
    | none =>
      cases c with
      | none =>
        have hstep : ∀ r, divanStep ((r : List (String × DivanEntry)), (none : Option String)) line = .ok (r, none) := by
          intro r
          unfold divanStep
          rw [hsec]

        rw [hstep r1, hstep r2]
        exact ih r1 r2 none h
      | some b =>
        cases hres : matchResult line with
        | none =>
          have hstep : ∀ r, divanStep ((r : List (String × DivanEntry)), some b) line = .ok (r, some b) := by
            intro r
            unfold divanStep
            rw [hsec, hres]
          rw [hstep r1, hstep r2]
          exact ih r1 r2 (some b) h
        | some tsu =>
          obtain ⟨t, s, u⟩ := tsu
          cases hdec : parseDecimal? s with
          | none =>
            have hstep : ∀ r, divanStep ((r : List (String × DivanEntry)), some b) line = .error () := by
              intro r
              simp only [divanStep, hsec, hres, hdec]
            rw [hstep r1, hstep r2]
            exact Or.inl ⟨rfl, rfl⟩
          | some v =>
            have hstep : ∀ r, divanStep ((r : List (String × DivanEntry)), some b) line =
                .ok (modifyA b (addMeasurement t (v * unitFactor u)) r, some b) := by
              intro r
              simp only [divanStep, hsec, hres, hdec]
            rw [hstep r1, hstep r2]
            apply ih
            by_cases hb : b = name
            · subst hb
              rw [lookupA_modifyA_self, lookupA_modifyA_self, h]
            · rw [lookupA_modifyA_ne (fun hc => hb hc.symm),
                lookupA_modifyA_ne (fun hc => hb hc.symm)]
              exact h

theorem matchMetric_inv {line label vstr : String}
    (h : matchMetric line = some (label, vstr)) :
    ∀ c ∈ vstr.toList, (c.isDigit || c = ',') = true := by
  unfold matchMetric at h
  split at h
  · exact absurd h (by simp)
  · split at h
    · split at h
      · split at h
        · simp only [Option.bind_eq_some, Option.map_eq_some'] at h
          obtain ⟨r2, hr2, pr, hpr, hout⟩ := h
          obtain ⟨hcs1, _, _⟩ := takeClass1_some hpr
          have hv : vstr.toList = pr.1 := by
            have hmk : vstr = String.mk pr.1 := by
              have hout' := hout
              simp only [Prod.mk.injEq] at hout'
              exact hout'.2.symm
            rw [hmk]
            rfl
          rw [hv, hcs1]
          intro c hc
          simpa using List.mem_takeWhile_imp hc
        · exact absurd h (by simp)
      · exact absurd h (by simp)
    · exact absurd h (by simp)

/-! ## Claim C1 -/

/-- Claim C1, counterexample.  The claim says a missing input file aborts the
run with a non-zero exit and no report.  In `main` of `parse_bench.py` a
missing file is read as the empty string
(`divan_file.read_text() if divan_file.exists() else ""`): with both input
paths absent from the file system the run exits 0 and writes the report,
refuting the claim. -/
theorem C1_counterexample :
    mainModel ["parse_bench.py", "divan.txt", "gungraun.txt"] (fun _ => none) =
      ⟨0, true⟩ := by
  rfl

/-- Claim C1, amended.  A required input path that does not exist is
tolerated, not fatal: with at least two input arguments and no readable
files the program still parses the empty texts, writes a full report and
exits 0; only invoking the script with fewer than two input arguments
aborts with exit status 1 and no report. -/
theorem C1_missing_input_tolerated (argv : List String) (fs : String → Option String)
    (h3 : 3 ≤ argv.length) (hfs : ∀ p, fs p = none) :
    mainModel argv fs = ⟨0, true⟩ ∧
      ∀ (argv2 : List String) (fs2 : String → Option String),
        argv2.length < 3 → mainModel argv2 fs2 = ⟨1, false⟩ := by
  constructor
  · unfold mainModel
    rw [if_neg (Nat.not_lt.mpr h3)]
    have h1 : ((argv.get? 1).bind fs) = none := by cases argv.get? 1 <;> simp [hfs]
    have h2 : ((argv.get? 2).bind fs) = none := by cases argv.get? 2 <;> simp [hfs]
    rw [h1, h2]
    rfl
  · intro argv2 fs2 hlt
    unfold mainModel
    rw [if_pos hlt]

/-- Claim C1, witness for the amended theorem at a concrete invocation. -/
theorem C1_missing_input_tolerated_witness :
    3 ≤ (["parse_bench.py", "a.txt", "b.txt"] : List String).length ∧
      mainModel ["parse_bench.py", "a.txt", "b.txt"] (fun _ => none) = ⟨0, true⟩ :=
  ⟨by decide,
    (C1_missing_input_tolerated ["parse_bench.py", "a.txt", "b.txt"] (fun _ => none)
      (by decide) (fun _ => rfl)).1⟩

/-! ## Claim C2 -/

/-- Claim C2, counterexample.  The claim says a measurement-shaped line with
a malformed numeric field (such as `"1.2.3"`) only demotes that line and
never aborts the whole document.  In `parse_divan_output` the call
`float(result_match.group(2))` is not wrapped in `try/except`, so the line
`"│  ├─ x  1.2.3 ns"` raises an uncaught `ValueError` that aborts the whole
parse. -/
theorem C2_counterexample :
    parse_divan_output "├─ b \n│  ├─ x  1.2.3 ns" = .error () := by
  decide

/-- Claim C2, amended.  Numeric parse failure is local only in the
instruction-harness parser (`int` is wrapped in `try/except ValueError`, the
line is skipped and parsing continues); in the statistical-harness parser a
line that matches the measurement shape with a numeric field rejected by
`float` raises an uncaught exception and the whole document parse aborts. -/
theorem C2_local_vs_fatal :
    (∀ (ls lm : String) (rest : List String) (b t s u : String)
        (res : List (String × DivanEntry)) (cur : Option String),
      matchSection ls = some b → matchSection lm = none →
      matchResult lm = some (t, s, u) → parseDecimal? s = none →
      divanLoop (ls :: lm :: rest) res cur = .error ()) ∧
    (∀ (line label vstr : String) (rest : List String)
        (res : List (String × List (String × Nat))) (b : String),
      matchGungraunName line = none → matchMetric line = some (label, vstr) →
      processMetricValue vstr = none →
      gungraunLoop (line :: rest) res (some b) = gungraunLoop rest res (some b)) := by
  constructor
  · intro ls lm rest b t s u res cur h1 h2 h3 h4
    have hstep1 : divanStep (res, cur) ls = .ok (updateA b ⟨[], []⟩ res, some b) := by
      simp only [divanStep, h1]
    have hstep2 : divanStep (updateA b ⟨[], []⟩ res, some b) lm = .error () := by
      simp only [divanStep, h2, h3, h4]
    have hrun : divanRun (ls :: lm :: rest) (res, cur) = .error () := by
      show (match divanStep (res, cur) ls with
            | .error e => Except.error e
            | .ok st' => divanRun (lm :: rest) st') = _
      rw [hstep1]
      show (match divanStep (updateA b ⟨[], []⟩ res, some b) lm with
            | .error e => Except.error e
            | .ok st' => divanRun rest st') = _
      rw [hstep2]
    unfold divanLoop
    rw [hrun]
    rfl
  · intro line label vstr rest res b h1 h2 h3
    simp only [gungraunLoop, h1, h2, h3]

/-- Claim C2, witness: a concrete divan document aborted by `"9.9.9"` and a
concrete gungraun metric line (`","` strips to the empty string, which
`int` rejects) that is skipped while parsing continues. -/
theorem C2_local_vs_fatal_witness :
    divanLoop ["├─ c ", "│  ├─ y  9.9.9 ns"] [] none = .error () ∧
      gungraunLoop ["  Instructions: ,"] [] (some "k") = gungraunLoop [] [] (some "k") :=
  ⟨C2_local_vs_fatal.1 "├─ c " "│  ├─ y  9.9.9 ns" [] "c" "y" "9.9.9" "ns" [] none
      rfl rfl rfl rfl,
    C2_local_vs_fatal.2 "  Instructions: ," "Instructions" "," [] [] "k" rfl rfl rfl⟩

/-! ## Claim C4 -/

/-- Claim C4, confirmed.  For every recognized measurement line the stored
duration is the reported decimal value multiplied by 1000 for `µs`, by
1_000_000 for `ms`, and unchanged for `ns`: parsing a section line followed
by a measurement line stores exactly that normalized value for the
marker-stripped target in the operation map chosen by the classifier. -/
theorem C4_unit_normalization (ls lm t s u b : String) (v : ℚ)
    (h1 : matchSection ls = some b) (h0 : matchSection lm = none)
    (h2 : matchResult lm = some (t, s, u)) (h3 : parseDecimal? s = some v) :
    ∃ e : DivanEntry, divanLoop [ls, lm] [] none = .ok [(b, e)] ∧
      ((u = "µs" → lookupA (stripMarkersS t)
          (if deserQ t then e.deser else e.ser) = some (v * 1000)) ∧
       (u = "ms" → lookupA (stripMarkersS t)
          (if deserQ t then e.deser else e.ser) = some (v * 1000000)) ∧
       (u = "ns" → lookupA (stripMarkersS t)
          (if deserQ t then e.deser else e.ser) = some v)) := by
  refine ⟨addMeasurement t (v * unitFactor u) ⟨[], []⟩, ?_, ?_, ?_, ?_⟩
  · have hstep1 : divanStep (([] : List (String × DivanEntry)), none) ls =
        .ok ([(b, ⟨[], []⟩)], some b) := by
      simp only [divanStep, h1, updateA]
    have hstep2 : divanStep ([(b, ⟨[], []⟩)], some b) lm =
        .ok ([(b, addMeasurement t (v * unitFactor u) ⟨[], []⟩)], some b) := by
      simp only [divanStep, h0, h2, h3, modifyA, if_pos]
    have hrun : divanRun [ls, lm] ([], none) =
        .ok ([(b, addMeasurement t (v * unitFactor u) ⟨[], []⟩)], some b) := by
      show (match divanStep (([] : List (String × DivanEntry)), none) ls with
            | .error e => Except.error e
            | .ok st' => divanRun [lm] st') = _
      rw [hstep1]
      show (match divanStep ([(b, ⟨[], []⟩)], some b) lm with
            | .error e => Except.error e
            | .ok st' => divanRun [] st') = _
      rw [hstep2]
      rfl
    unfold divanLoop
    rw [hrun]
    rfl
  all_goals
    intro hu
    subst hu
    by_cases hd : deserQ t <;>
      simp [addMeasurement, hd, updateA, lookupA, unitFactor]

/-- Claim C4, witness at the spec's own scenario line: `1.046 µs` is stored
as `1.046 * 1000 = 1046` nanoseconds. -/
theorem C4_unit_normalization_witness :
    parseDecimal? "1.046" = some ((1 : ℚ) + 46 / 10 ^ 3) ∧
      (∃ e : DivanEntry,
        divanLoop ["├─ w ", "│  ├─ facet_format_jit_deserialize  1.046 µs"] [] none =
          .ok [("w", e)] ∧
        ((("µs" : String) = "µs" → lookupA (stripMarkersS "facet_format_jit_deserialize")
            (if deserQ "facet_format_jit_deserialize" then e.deser else e.ser) =
              some (((1 : ℚ) + 46 / 10 ^ 3) * 1000)) ∧
         (("µs" : String) = "ms" → lookupA (stripMarkersS "facet_format_jit_deserialize")
            (if deserQ "facet_format_jit_deserialize" then e.deser else e.ser) =
              some (((1 : ℚ) + 46 / 10 ^ 3) * 1000000)) ∧
         (("µs" : String) = "ns" → lookupA (stripMarkersS "facet_format_jit_deserialize")
            (if deserQ "facet_format_jit_deserialize" then e.deser else e.ser) =
              some ((1 : ℚ) + 46 / 10 ^ 3)))) :=
  ⟨by simp [parseDecimal?, digitsToNat],
    C4_unit_normalization "├─ w " "│  ├─ facet_format_jit_deserialize  1.046 µs"
      "facet_format_jit_deserialize" "1.046" "µs" "w" ((1 : ℚ) + 46 / 10 ^ 3)
      rfl rfl rfl (by simp [parseDecimal?, digitsToNat])⟩

/-! ## Claim C5 -/

/-- Claim C5, confirmed.  For every line the gungraun metric matcher accepts,
the captured value string can contain only digits and thousands separators —
the `([\d,]+)` capture stops at the `|` separator, so only the `current`
component left of it is ever kept — the separators are stripped before
integer parsing, and when the capture contains a digit the stored value is
the integer of the separator-stripped digits; in particular the value
`"6,549|0"` parses to the integer 6549. -/
theorem C5_current_component (line label vstr : String)
    (h : matchMetric line = some (label, vstr)) :
    ('|' ∉ vstr.toList) ∧
    processMetricValue vstr =
      pyInt? (String.mk (vstr.toList.filter (fun c => c ≠ ','))) ∧
    (vstr.toList.any Char.isDigit = true →
      processMetricValue vstr =
        some (digitsToNat (vstr.toList.filter (fun c => c ≠ ',')))) ∧
    parse_gungraun_output
        "gungraun_jit::jit_benchmarks::simple_struct\n  Instructions: 6,549|0" =
      [("simple_struct", [("Instructions", 6549)])] := by
  have hclass := matchMetric_inv h
  have hnobar : '|' ∉ vstr.toList := by
    intro hmem
    have := hclass '|' hmem
    simp at this
  have hfilterbar :
      ((vstr.toList.filter (fun c => c ≠ ',')).any (fun c => c = '|')) = false := by
    rw [List.any_eq_false]
    intro c hc
    have hcv : c ∈ vstr.toList := List.mem_of_mem_filter hc
    intro hceq
    have hcb : c = '|' := by simpa using hceq
    subst hcb
    exact hnobar hcv
  refine ⟨hnobar, ?_, ?_, by decide⟩
  · unfold processMetricValue
    rw [hfilterbar]
    simp
  · intro hdig
    unfold processMetricValue
    rw [hfilterbar]
    rw [if_neg (by simp)]
    have hallL : ((vstr.toList.filter (fun c => c ≠ ',')).all Char.isDigit) = true := by
      rw [List.all_eq_true]
      intro c hc
      have hcv : c ∈ vstr.toList := List.mem_of_mem_filter hc
      have hcne : (c ≠ ',') := by simpa using List.of_mem_filter hc
      have := hclass c hcv
      rcases Bool.or_eq_true_iff.mp this with hd | hcomma
      · exact hd
      · exact absurd (by simpa using hcomma) hcne
    have hneL : (vstr.toList.filter (fun c => c ≠ ',')) ≠ [] := by
      obtain ⟨c, hcv, hcd⟩ := List.any_eq_true.mp hdig
      have hcne : c ≠ ',' := by
        intro hcon
        subst hcon
        simp at hcd
      have hmem : c ∈ vstr.toList.filter (fun c => c ≠ ',') :=
        List.mem_filter.mpr ⟨hcv, by simpa using hcne⟩
      intro hnil
      rw [hnil] at hmem
      exact absurd hmem (List.not_mem_nil c)
    unfold pyInt?
    rw [if_pos ?hc]
    case hc =>
      rw [show (String.mk (vstr.toList.filter (fun c => c ≠ ','))).toList =
          vstr.toList.filter (fun c => c ≠ ',') from rfl]
      rw [Bool.and_eq_true]
      exact ⟨decide_eq_true hneL, hallL⟩
    rfl

/-- Claim C5, witness at the spec's boundary line `"  Instructions: 6,549|0"`,
whose capture is `"6,549"`. -/
theorem C5_current_component_witness :
    matchMetric "  Instructions: 6,549|0" = some ("Instructions", "6,549") ∧
      processMetricValue "6,549" =
        some (digitsToNat ("6,549".toList.filter (fun c => c ≠ ','))) :=
  ⟨by decide,
    ((C5_current_component "  Instructions: 6,549|0" "Instructions" "6,549"
      (by decide)).2.2.1 (by decide))⟩

/-! ## Claim C8 -/

/-- Claim C8, confirmed.  The vs-baseline cell of `generate_benchmark_section`
is a rendered ratio only when the `serde_json` baseline is present in the
group with a strictly positive duration, in which case the ratio is the
row's duration divided by the baseline duration; a missing baseline or a
baseline duration of 0 renders the absent marker `"-"` for every row
duration, and the division is reached only under the positivity guard, so
no division error can occur. -/
theorem C8_baseline_ratio_guard (data : List (String × ℚ)) (v q : ℚ)
    (h : vsSerdeStr (vsSerdeValue v (lookupA "serde_json" data)) = some q) :
    (∃ s, lookupA "serde_json" data = some s ∧ 0 < s ∧ q = v / s) ∧
      ∀ v' : ℚ, vsSerdeStr (vsSerdeValue v' none) = none ∧
        vsSerdeStr (vsSerdeValue v' (some 0)) = none := by
  constructor
  · cases hst : lookupA "serde_json" data with
    | none =>
      rw [hst] at h
      simp [vsSerdeValue, vsSerdeStr] at h
    | some s =>
      rw [hst] at h
      by_cases hs : 0 < s
      · by_cases hvq : 0 < v / s
        · simp only [vsSerdeValue, if_pos hs, vsSerdeStr, if_pos hvq,
            Option.some.injEq] at h
          exact ⟨s, rfl, hs, h.symm⟩
        · simp [vsSerdeValue, if_pos hs, vsSerdeStr, hvq] at h
      · simp [vsSerdeValue, hs, vsSerdeStr] at h
  · intro v'
    constructor
    · simp [vsSerdeValue, vsSerdeStr]
    · simp [vsSerdeValue, vsSerdeStr]

/-- Claim C8, witness: baseline present with duration 2 renders the ratio
`2 / 2 = 1` for the baseline row itself. -/
theorem C8_baseline_ratio_guard_witness :
    vsSerdeStr (vsSerdeValue 2 (lookupA "serde_json" [("serde_json", (2 : ℚ))])) =
        some 1 ∧
      ((∃ s, lookupA "serde_json" [("serde_json", (2 : ℚ))] = some s ∧ 0 < s ∧
          (1 : ℚ) = 2 / s) ∧
        ∀ v' : ℚ, vsSerdeStr (vsSerdeValue v' none) = none ∧
          vsSerdeStr (vsSerdeValue v' (some 0)) = none) :=
  ⟨by simp [lookupA, vsSerdeValue, vsSerdeStr],
    C8_baseline_ratio_guard [("serde_json", (2 : ℚ))] 2 1
      (by simp [lookupA, vsSerdeValue, vsSerdeStr])⟩

/-! ## Claim C10 -/

/-- Claim C10, confirmed.  In `generate_benchmark_section`, an instruction
count of exactly 0 is falsy in `f"{instructions:,}" if instructions else "-"`,
so a matched entry with `Instructions = 0` renders the absent marker `"-"`,
exactly as a missing correlation match does — the two cases are
indistinguishable in the output. -/
theorem C10_zero_instructions_absent (g : List (String × List (String × Nat)))
    (key : String)
    (h : (lookupA key g).bind (lookupA "Instructions") = some 0) :
    instructions_str g key = "-" ∧
      ∀ (g2 : List (String × List (String × Nat))) (key2 : String),
        (lookupA key2 g2).bind (lookupA "Instructions") = none →
        instructions_str g2 key2 = "-" := by
  constructor
  · simp [instructions_str, h]
  · intro g2 key2 h2
    simp [instructions_str, h2]

/-- Claim C10, witness: an entry whose `Instructions` metric is 0 renders
`"-"`, the same marker as a missing entry. -/
theorem C10_zero_instructions_absent_witness :
    (lookupA "w_facet_json" [("w_facet_json", [("Instructions", 0)])]).bind
        (lookupA "Instructions") = some 0 ∧
      (instructions_str [("w_facet_json", [("Instructions", 0)])] "w_facet_json" = "-" ∧
        ∀ (g2 : List (String × List (String × Nat))) (key2 : String),
          (lookupA key2 g2).bind (lookupA "Instructions") = none →
          instructions_str g2 key2 = "-") :=
  ⟨by decide,
    C10_zero_instructions_absent [("w_facet_json", [("Instructions", 0)])]
      "w_facet_json" (by decide)⟩

/-! ## Claim C6 -/

/-- Shared helper: a section line followed by one recognized measurement line
parses to a single-benchmark model whose entry is `addMeasurement` applied
to the empty entry. -/
theorem divanTwoLines (ls lm t s u b : String) (v : ℚ)
    (h1 : matchSection ls = some b) (h0 : matchSection lm = none)
    (h2 : matchResult lm = some (t, s, u)) (h3 : parseDecimal? s = some v) :
    divanLoop [ls, lm] [] none =
      .ok [(b, addMeasurement t (v * unitFactor u) ⟨[], []⟩)] := by
  have hstep1 : divanStep (([] : List (String × DivanEntry)), none) ls =
      .ok ([(b, ⟨[], []⟩)], some b) := by
    simp only [divanStep, h1, updateA]
  have hstep2 : divanStep ([(b, ⟨[], []⟩)], some b) lm =
      .ok ([(b, addMeasurement t (v * unitFactor u) ⟨[], []⟩)], some b) := by
    simp only [divanStep, h0, h2, h3, modifyA, if_pos]
  have hrun : divanRun [ls, lm] ([], none) =
      .ok ([(b, addMeasurement t (v * unitFactor u) ⟨[], []⟩)], some b) := by
    show (match divanStep (([] : List (String × DivanEntry)), none) ls with
          | .error e => Except.error e
          | .ok st' => divanRun [lm] st') = _
    rw [hstep1]
    show (match divanStep ([(b, ⟨[], []⟩)], some b) lm with
          | .error e => Except.error e
          | .ok st' => divanRun [] st') = _
    rw [hstep2]
    rfl
  unfold divanLoop
  rw [hrun]
  rfl

/-- Claim C6, counterexample.  The claim says the stored target equals the
measurement name with the operation marker substring stripped.  For the name
`"x_serialize_deserialize"` the classifier picks `deserialize`, so the
claim's target is `"x_serialize"` (the spec-modelled
`specStripOperationMarker`), but `parse_divan_output` applies
`.replace('_deserialize', '').replace('_serialize', '')`, which strips both
markers and stores the target under `"x"`. -/
theorem C6_counterexample :
    (parse_divan_output "├─ bench \n│  ├─ x_serialize_deserialize  1 ns").map
        (fun m => m.map (fun p => (p.1, p.2.deser.map Prod.fst, p.2.ser.map Prod.fst))) =
      .ok [("bench", ["x"], [])] ∧
      deserQ "x_serialize_deserialize" = true ∧
      specStripOperationMarker "x_serialize_deserialize" = "x_serialize" ∧
      ("x" : String) ≠ "x_serialize" :=
  ⟨by decide, by decide, by decide, by decide⟩

/-- Claim C6, amended.  The operation is `deserialize` exactly when the
measurement name contains the substring `"deserialize"` (everything else is
`serialize`), and the stored target identity is the measurement name with
all occurrences of `"_deserialize"` removed and then all occurrences of
`"_serialize"` removed — both markers are stripped regardless of the
classified operation. -/
theorem C6_operation_and_target (ls lm t s u b : String) (v : ℚ)
    (h1 : matchSection ls = some b) (h0 : matchSection lm = none)
    (h2 : matchResult lm = some (t, s, u)) (h3 : parseDecimal? s = some v) :
    ∃ e : DivanEntry, divanLoop [ls, lm] [] none = .ok [(b, e)] ∧
      (deserQ t = true → e.deser = [(stripMarkersS t, v * unitFactor u)] ∧ e.ser = []) ∧
      (deserQ t = false → e.ser = [(stripMarkersS t, v * unitFactor u)] ∧ e.deser = []) ∧
      (deserQ t = true ↔ ∃ l2 r2, t.toList = l2 ++ "deserialize".toList ++ r2) := by
  refine ⟨addMeasurement t (v * unitFactor u) ⟨[], []⟩,
    divanTwoLines ls lm t s u b v h1 h0 h2 h3, ?_, ?_, ?_⟩
  · intro hd
    constructor <;> simp [addMeasurement, hd, updateA]
  · intro hd
    constructor <;> simp [addMeasurement, hd, updateA]
  · exact containsSub_iff ("deserialize".toList) t.toList

/-- Claim C6, witness at the spec's scenario name
`facet_format_jit_deserialize`: classified as deserialize, stored under
`facet_format_jit`. -/
theorem C6_operation_and_target_witness :
    matchResult "│  ├─ facet_format_jit_deserialize  7 ns" =
        some ("facet_format_jit_deserialize", "7", "ns") ∧
      (∃ e : DivanEntry,
        divanLoop ["├─ simple_struct ", "│  ├─ facet_format_jit_deserialize  7 ns"]
          [] none = .ok [("simple_struct", e)] ∧
        (deserQ "facet_format_jit_deserialize" = true →
          e.deser = [(stripMarkersS "facet_format_jit_deserialize",
            (7 : ℚ) * unitFactor "ns")] ∧ e.ser = []) ∧
        (deserQ "facet_format_jit_deserialize" = false →
          e.ser = [(stripMarkersS "facet_format_jit_deserialize",
            (7 : ℚ) * unitFactor "ns")] ∧ e.deser = []) ∧
        (deserQ "facet_format_jit_deserialize" = true ↔
          ∃ l2 r2, "facet_format_jit_deserialize".toList =
            l2 ++ "deserialize".toList ++ r2)) :=
  ⟨by decide,
    C6_operation_and_target "├─ simple_struct " "│  ├─ facet_format_jit_deserialize  7 ns"
      "facet_format_jit_deserialize" "7" "ns" "simple_struct" 7
      rfl rfl rfl (by simp [parseDecimal?, digitsToNat])⟩

/-! ## Claim C7 -/

/-- Shared helper: the synthesizer output is empty whenever every entry of
the model contributes no section. -/
theorem generate_sections_empty (m : List (String × DivanEntry))
    (h : ∀ b e, lookupA b m = some e → benchSections b e = []) :
    generate_sections_html m = [] := by
  simp only [generate_sections_html]
  apply flatMapNilOf
  intro benches hb
  apply flatMapNilOf
  intro b hbm
  cases hl : lookupA b m with
  | none => rfl
  | some e => exact h b e hl

/-- Claim C7, confirmed.  A benchmark section line with no recognized
measurement lines after it still yields an entry in the parsed model (with
both operation maps empty) — from any intermediate parser state — and the
synthesizer skips such an empty entry: it emits no table/chart section for
it and no error is raised (the parse returns `ok` and the renderer is a
total function). -/
theorem C7_empty_benchmark_retained (l : String) (rest : List String) (name : String)
    (h1 : matchSection l = some name)
    (h2 : ∀ l2 ∈ rest, matchSection l2 = none ∧ matchResult l2 = none) :
    divanLoop (l :: rest) [] none = .ok [(name, ⟨[], []⟩)] ∧
      (∀ (res : List (String × DivanEntry)) (cur : Option String),
        ∃ m, divanLoop (l :: rest) res cur = .ok m ∧ lookupA name m = some ⟨[], []⟩) ∧
      benchSections name ⟨[], []⟩ = [] ∧
      generate_sections_html [(name, ⟨[], []⟩)] = [] := by
  have hgen : ∀ (res : List (String × DivanEntry)) (cur : Option String),
      divanRun (l :: rest) (res, cur) = .ok (updateA name ⟨[], []⟩ res, some name) := by
    intro res cur
    have hstep : divanStep (res, cur) l = .ok (updateA name ⟨[], []⟩ res, some name) := by
      simp only [divanStep, h1]
    show (match divanStep (res, cur) l with
          | .error e => Except.error e
          | .ok st' => divanRun rest st') = _
    rw [hstep]
    exact divanRun_skip rest h2 _
  refine ⟨?_, ?_, rfl, ?_⟩
  · unfold divanLoop
    rw [hgen [] none]
    rfl
  · intro res cur
    refine ⟨updateA name ⟨[], []⟩ res, ?_, lookupA_updateA_self _ _ _⟩
    unfold divanLoop
    rw [hgen res cur]
    rfl
  · apply generate_sections_empty
    intro b e hl
    simp only [lookupA] at hl
    split at hl
    · cases hl
      rfl
    · exact absurd hl (by simp)

/-- Claim C7, witness: a section whose following lines are all unrecognized
parses to an empty entry and renders nothing. -/
theorem C7_empty_benchmark_retained_witness :
    matchSection "├─ twitter " = some "twitter" ∧
      (divanLoop ["├─ twitter ", "Timer precision: 20 ns"] [] none =
          .ok [("twitter", ⟨[], []⟩)] ∧
        (∀ (res : List (String × DivanEntry)) (cur : Option String),
          ∃ m, divanLoop ["├─ twitter ", "Timer precision: 20 ns"] res cur = .ok m ∧
            lookupA "twitter" m = some ⟨[], []⟩) ∧
        benchSections "twitter" ⟨[], []⟩ = [] ∧
        generate_sections_html [("twitter", ⟨[], []⟩)] = []) :=
  ⟨by decide,
    C7_empty_benchmark_retained "├─ twitter " ["Timer precision: 20 ns"] "twitter"
      (by decide) (by decide)⟩

/-! ## Claim C9 -/

/-- Claim C9, confirmed.  When a section line naming `name` occurs, the
parser resets that benchmark's entry to empty maps
(`results[current_benchmark] = {'deserialize': {}, 'serialize': {}}`), so
everything parsed for `name` before that line is discarded: whatever prefix
preceded the last section line for `name`, the final entry stored under
`name` is exactly the entry produced by parsing from that section line
alone. -/
theorem C9_last_section_wins (pre suf : List String) (l name : String)
    (h : matchSection l = some name) (m : List (String × DivanEntry))
    (hok : divanLoop (pre ++ l :: suf) [] none = .ok m) :
    ∃ m2, divanLoop (l :: suf) [] none = .ok m2 ∧
      lookupA name m = lookupA name m2 := by
  unfold divanLoop at hok
  obtain ⟨mst, hrun, hm⟩ : ∃ mst, divanRun (pre ++ l :: suf) ([], none) = .ok mst ∧
      mst.1 = m := by
    cases hr : divanRun (pre ++ l :: suf) ([], none) with
    | error e =>
      rw [hr] at hok
      exact absurd hok (by simp [Except.map])
    | ok st =>
      rw [hr] at hok
      exact ⟨st, rfl, by simpa [Except.map] using hok⟩
  rw [divanRun_append] at hrun
  cases hp : divanRun pre ([], none) with
  | error e =>
    rw [hp] at hrun
    exact absurd hrun (by simp)
  | ok st0 =>
    rw [hp] at hrun
    obtain ⟨r0, c0⟩ := st0
    have hstep : ∀ (r : List (String × DivanEntry)) (c : Option String),
        divanStep (r, c) l = .ok (updateA name ⟨[], []⟩ r, some name) := by
      intro r c
      simp only [divanStep, h]
    have hrun1 : divanRun suf (updateA name ⟨[], []⟩ r0, some name) = .ok mst := by
      have hu : divanRun (l :: suf) (r0, c0) =
          divanRun suf (updateA name ⟨[], []⟩ r0, some name) := by
        show (match divanStep (r0, c0) l with
              | .error e => Except.error e
              | .ok st' => divanRun suf st') = _
        rw [hstep r0 c0]
      have hrun2 : divanRun (l :: suf) (r0, c0) = .ok mst := hrun
      rw [hu] at hrun2
      exact hrun2
    have hrel := divanRun_rel name suf (updateA name ⟨[], []⟩ r0)
      (updateA name ⟨[], []⟩ []) (some name)
      (by rw [lookupA_updateA_self, lookupA_updateA_self])
    rcases hrel with ⟨he1, _⟩ | ⟨m1, m2, c', hm1, hm2, hlk⟩
    · rw [hrun1] at he1
      exact absurd he1 (by simp)
    · rw [hrun1] at hm1
      have hmst : mst = (m1, c') := Except.ok.inj hm1
      refine ⟨m2, ?_, ?_⟩
      · unfold divanLoop
        have hu : divanRun (l :: suf) ([], none) =
            divanRun suf (updateA name ⟨[], []⟩ [], some name) := by
          show (match divanStep (([] : List (String × DivanEntry)), none) l with
                | .error e => Except.error e
                | .ok st' => divanRun suf st') = _
          rw [hstep [] none]
        rw [hu, hm2]
        rfl
      · rw [← hm, hmst]
        exact hlk

/-- Claim C9, witness: a measurement stored for `foo` before a second
`├─ foo` section line is discarded; the final entry for `foo` is empty,
exactly as if only the last section had been parsed. -/
theorem C9_last_section_wins_witness :
    matchSection "├─ foo " = some "foo" ∧
      divanLoop (["├─ foo ", "│  ├─ a  2 ns"] ++ ["├─ foo "]) [] none =
        .ok [("foo", ⟨[], []⟩)] ∧
      (∃ m2, divanLoop ["├─ foo "] [] none = .ok m2 ∧
        lookupA "foo" [("foo", (⟨[], []⟩ : DivanEntry))] = lookupA "foo" m2) :=
  ⟨by decide, by decide,
    C9_last_section_wins ["├─ foo ", "│  ├─ a  2 ns"] [] "├─ foo " "foo"
      (by decide) [("foo", ⟨[], []⟩)] (by decide)⟩

/-! ## Claim C3 -/

/-- Claim C3, counterexample.  The claim says exactly one row per group has
`ratio_to_fastest = 1.0`.  With a duration tie (`a` and `b` both at 5), the
per-row computation `time_ns / fastest` of `generate_html_report` in
`parse-bench.py` yields ratio 1.0 for both tied rows: the count of rows
with ratio exactly 1 is 2, not 1. -/
theorem C3_counterexample :
    (vs_fastest_rows [("a", 5), ("b", 5)]).countP
        (fun r => decide (r.2 = some 1)) = 2 := by
  simp [vs_fastest_rows, sortStable, insertSorted, listMin, List.countP, List.countP.go]

/-- Claim C3, amended.  For a non-empty group with positive durations:
every row's ratio equals its duration divided by the group minimum; every
ratio is at least 1; the number of rows with ratio exactly 1 equals the
number of rows whose duration attains the minimum (at least one, and
exactly one precisely when the minimum is unique — not always one, as ties
show); the rendered order is the stable fastest-first sort, so the first
row is the first-seen minimal-duration row, with ratio 1. -/
theorem C3_ratio_to_fastest (data : List (String × ℚ))
    (hne : data ≠ []) (hpos : ∀ p ∈ data, 0 < p.2) :
    vs_fastest_rows data = (sortStable data).map
        (fun p => (p.1, some (p.2 / listMin (data.map Prod.snd)))) ∧
      (∀ r ∈ vs_fastest_rows data, ∃ q, r.2 = some q ∧ 1 ≤ q) ∧
      (vs_fastest_rows data).countP (fun r => decide (r.2 = some 1)) =
        data.countP (fun p => decide (p.2 = listMin (data.map Prod.snd))) ∧
      1 ≤ data.countP (fun p => decide (p.2 = listMin (data.map Prod.snd))) ∧
      (vs_fastest_rows data).head? =
        (data.find? (fun p => decide (p.2 = listMin (data.map Prod.snd)))).map
          (fun p => (p.1, some (1 : ℚ))) := by
  have hmapne : data.map Prod.snd ≠ [] := by
    cases data with
    | nil => exact absurd rfl hne
    | cons p rest => simp
  have hfm := listMin_mem (data.map Prod.snd) hmapne
  obtain ⟨p0, hp0, hp0v⟩ := List.mem_map.mp hfm
  have hf : 0 < listMin (data.map Prod.snd) := hp0v ▸ hpos p0 hp0
  have ha : vs_fastest_rows data = (sortStable data).map
      (fun p => (p.1, some (p.2 / listMin (data.map Prod.snd)))) := by
    unfold vs_fastest_rows
    exact List.map_congr_left (fun p _ => by rw [if_pos hf])
  refine ⟨ha, ?_, ?_, ?_, ?_⟩
  · intro r hr
    rw [ha] at hr
    obtain ⟨p, hps, hpr⟩ := List.mem_map.mp hr
    refine ⟨p.2 / listMin (data.map Prod.snd), by rw [← hpr], ?_⟩
    rw [one_le_div hf]
    exact listMin_le _ _ (List.mem_map_of_mem Prod.snd ((mem_sortStable p data).mp hps))
  · rw [ha, List.countP_map, countP_sortStable]
    apply List.countP_congr
    intro p _
    simp only [Function.comp_apply, decide_eq_true_eq, Option.some.injEq]
    exact div_eq_one_iff_eq (ne_of_gt hf)
  · rw [Nat.one_le_iff_ne_zero, ← Nat.pos_iff_ne_zero, List.countP_pos_iff]
    exact ⟨p0, hp0, decide_eq_true hp0v⟩
  · rw [ha, List.head?_map, head_sortStable]
    cases hfind : data.find? (fun p => decide (p.2 = listMin (data.map Prod.snd))) with
    | none => rfl
    | some a =>
      have hav : a.2 = listMin (data.map Prod.snd) := by
        have := List.find?_some hfind
        simpa using this
      show some (a.1, some (a.2 / listMin (data.map Prod.snd))) = some (a.1, some 1)
      rw [hav, div_self (ne_of_gt hf)]

/-- Claim C3, witness on a two-row group with distinct durations 2 and 4. -/
theorem C3_ratio_to_fastest_witness :
    ([("a", (2 : ℚ)), ("b", 4)] : List (String × ℚ)) ≠ [] ∧
      (vs_fastest_rows [("a", (2 : ℚ)), ("b", 4)]).countP
          (fun r => decide (r.2 = some 1)) =
        ([("a", (2 : ℚ)), ("b", 4)]).countP
          (fun p => decide (p.2 = listMin ([("a", (2 : ℚ)), ("b", 4)].map Prod.snd))) :=
  ⟨by decide, (C3_ratio_to_fastest [("a", (2 : ℚ)), ("b", 4)]
    (by decide) (by decide)).2.2.1⟩

end ParseBench
